import Mathlib

/-!
Verification development for the Scheduler-Agent repository.

The definitions below are shallow embeddings of the frontend code
(`frontend/src/api/client.ts`, `frontend/src/components/Shells.tsx`,
`frontend/src/pages/EvaluationPage.tsx`, `static/scheduler.js`) and, where the
backend orchestrator is not part of the available sources, of the multi-round
action orchestrator as described by the specification.

JavaScript strings are modelled as Lean `String`s; the handful of string
primitives the code uses (`trim`, `includes`, `startsWith`, `slice`,
`replace` with the two slash regexes) are given explicit executable
definitions over the underlying character lists.
-/

namespace SchedulerAgent

/-! ### JavaScript string primitives -/

/-- Character-list version of JavaScript `String.prototype.trim`
(whitespace approximated by `Char.isWhitespace`). -/
def trimChars (l : List Char) : List Char :=
  ((l.dropWhile Char.isWhitespace).reverse.dropWhile Char.isWhitespace).reverse

/-- JavaScript `String.prototype.trim` on the `String` wrapper. -/
def jsTrim (s : String) : String :=
  String.mk (trimChars s.data)

/-- True when the character list contains two consecutive `'/'` characters. -/
def hasDoubleSlash : List Char → Bool
  | a :: b :: rest => (a == '/' && b == '/') || hasDoubleSlash (b :: rest)
  | _ => false

/-- Worker for `collapseSlashes`; the flag records whether the previous
character already was an emitted slash. -/
def collapseGo : Bool → List Char → List Char
  | _, [] => []
  | prevSlash, c :: rest =>
    if c == '/' then
      if prevSlash then collapseGo true rest
      else '/' :: collapseGo true rest
    else c :: collapseGo false rest

/-- JavaScript `replace(/\/{2,}/g, "/")`: collapse every run of two or more
slashes into a single slash. -/
def collapseSlashes (l : List Char) : List Char :=
  collapseGo false l

/-- JavaScript `replace(/\/+$/, "")`: drop every trailing slash. -/
def removeTrailingSlashes (l : List Char) : List Char :=
  (l.reverse.dropWhile (fun c => c == '/')).reverse

/-- JavaScript `haystack.includes(needle)` on character lists. -/
def containsSub (pat : List Char) : List Char → Bool
  | [] => pat.isPrefixOf []
  | c :: rest => pat.isPrefixOf (c :: rest) || containsSub pat rest

/-- JavaScript `haystack.includes(needle)` on `String`s. -/
def jsIncludes (haystack pat : String) : Bool :=
  containsSub pat.data haystack.data

/-! ### `frontend/src/api/client.ts`: proxy prefix handling

The module computes `proxyPrefix` once from the `meta[name='proxy-prefix']`
tag; `withPrefix` and `stripPrefixFromPath` close over it.  We make the raw
meta content an explicit first argument. -/

/-- Module-level `proxyPrefix` derivation from the raw meta content:
`(raw || "").trim()`, then `raw === "/" ? "" : raw.replace(/\/+$/, "")`. -/
def proxyPrefixOf (raw : List Char) : List Char :=
  let t := trimChars raw
  if t = ['/'] then [] else removeTrailingSlashes t

/-- The `cleaned` prefix both functions compute:
`proxyPrefix.startsWith("/") ? proxyPrefix : "/" + proxyPrefix`. -/
def cleanedOf (pp : List Char) : List Char :=
  if pp.head? = some '/' then pp else '/' :: pp

/-- `withPrefix` from `client.ts` (and identically `static/scheduler.js`):
normalize the path to start with `/`, prepend the cleaned prefix, collapse
duplicate slashes. -/
def withPrefix (raw : List Char) (path : List Char) : List Char :=
  let pp := proxyPrefixOf raw
  let normalized := if path.head? = some '/' then path else '/' :: path
  if pp = [] then normalized
  else collapseSlashes (cleanedOf pp ++ normalized)

/-- `stripPrefixFromPath` from `client.ts`: remove the cleaned prefix from a
path when present, re-rooting the remainder at `/`. -/
def stripPrefixFromPath (raw : List Char) (path : List Char) : List Char :=
  let pp := proxyPrefixOf raw
  if pp = [] then (if path = [] then ['/'] else path)
  else
    let cleaned := cleanedOf pp
    if path ≠ [] ∧ cleaned.isPrefixOf path then
      let stripped := path.drop cleaned.length
      if stripped.head? = some '/' then stripped else '/' :: stripped
    else (if path = [] then ['/'] else path)

/-! ### `frontend/src/api/client.ts`: `ApiError` and `fetchJson`

An HTTP response is modelled by its `ok` flag, numeric status, `content-type`
header value, raw body text and — since `Response.json()` either yields the
parsed body or rejects with a `SyntaxError` — an optional parsed JSON value of
an abstract type `α` (`none` means the body is not valid JSON). -/

structure HttpResponse (α : Type) where
  ok : Bool
  status : Nat
  contentType : String
  bodyText : String
  jsonBody : Option α

/-- The JavaScript exceptions `fetchJson` can reject with: the repository's
`ApiError (message, status)` or the `SyntaxError` thrown by `res.json()` on an
invalid body. -/
inductive JsError where
  | apiError (message : String) (status : Nat)
  | syntaxError (message : String)
deriving DecidableEq, Repr

/-- `err.message` of a JavaScript `Error` value. -/
def JsError.message : JsError → String
  | .apiError m _ => m
  | .syntaxError m => m

/-- `fetchJson` from `client.ts`: reject non-`ok` responses with
`ApiError(errText || "HTTP <status>", status)`, reject `ok` responses whose
`content-type` does not include `application/json` with
`ApiError("Response is not JSON", status)`, then return `res.json()`. -/
def fetchJson {α : Type} (res : HttpResponse α) : Except JsError α :=
  if res.ok = false then
    .error (.apiError
      (if res.bodyText = "" then "HTTP " ++ toString res.status else res.bodyText)
      res.status)
  else if jsIncludes res.contentType "application/json" = false then
    .error (.apiError "Response is not JSON" res.status)
  else
    match res.jsonBody with
    | some v => .ok v
    | none => .error (.syntaxError "Unexpected end of JSON input")

/-! ### Chat data model (`frontend/src/types/api.ts` and the shapes consumed
by `Shells.tsx`) -/

inductive ChatRole where
  | system
  | user
  | assistant
deriving DecidableEq, Repr

structure ChatMessage where
  role : ChatRole
  content : String
deriving DecidableEq, Repr

/-- One action inside a `ChatExecutionTrace` round, restricted to the fields
`describeAction` reads: `type`, and the `name` / `date` / `time` entries of
`params` (absent keys and non-string values both read back as `none`, which
`trimValue` maps to the empty hint). -/
structure ChatExecutionAction where
  type : String
  paramName : Option String
  paramDate : Option String
  paramTime : Option String
deriving DecidableEq, Repr

/-- One round of a `ChatExecutionTrace` as consumed by
`buildExecutionTraceSummary`: the code guards both fields with
`Array.isArray`, so each is optional. -/
structure ChatExecutionRound where
  actions : Option (List ChatExecutionAction)
  errors : Option (List String)
deriving DecidableEq, Repr

/-- The `/api/chat` response shape read by the submit handlers: `data.reply`
is used only when it is a string, `should_refresh` is tested for truthiness,
`modified_ids` only when it is an array, and `execution_trace` only when it is
an array. -/
structure ChatResponse where
  reply : Option String
  shouldRefresh : Bool
  modifiedIds : Option (List String)
  executionTrace : Option (List ChatExecutionRound)
deriving DecidableEq, Repr

/-! ### `Shells.tsx`: execution-trace summary and submit handlers -/

/-- The `ACTION_LABELS` table from `Shells.tsx`. -/
def actionLabels : List (String × String) :=
  [("resolve_schedule_expression", "日時を計算"),
   ("create_custom_task", "予定を追加"),
   ("delete_custom_task", "予定を削除"),
   ("toggle_custom_task", "予定の完了状態を更新"),
   ("update_custom_task_time", "予定時刻を変更"),
   ("rename_custom_task", "予定名を変更"),
   ("update_custom_task_memo", "予定メモを更新"),
   ("toggle_step", "ルーチンの完了状態を更新"),
   ("add_routine", "ルーチンを追加"),
   ("delete_routine", "ルーチンを削除"),
   ("update_routine_days", "ルーチン曜日を変更"),
   ("add_step", "ステップを追加"),
   ("delete_step", "ステップを削除"),
   ("update_step_time", "ステップ時刻を変更"),
   ("rename_step", "ステップ名を変更"),
   ("update_step_memo", "ステップメモを更新"),
   ("update_log", "日報を更新"),
   ("append_day_log", "日報に追記"),
   ("get_day_log", "日報を確認"),
   ("get_daily_summary", "1日の予定を確認"),
   ("list_tasks_in_period", "期間の予定を確認")]

/-- `trimValue` from `Shells.tsx` with the default `max = 24`: non-strings
become `""`; strings are trimmed and, when longer than `max`, truncated to
`max - 1` characters followed by an ellipsis. -/
def trimValue (value : Option String) : String :=
  match value with
  | none => ""
  | some s =>
    let text := jsTrim s
    if text = "" then ""
    else if text.length ≤ 24 then text
    else text.take 23 ++ "…"

/-- Join a list of strings with a separator (`Array.prototype.join`). -/
def joinSep (sep : String) : List String → String
  | [] => ""
  | [x] => x
  | x :: xs => x ++ sep ++ joinSep sep xs

/-- `describeAction` from `Shells.tsx`: label the action type via
`ACTION_LABELS` (falling back to the raw type) and append the non-empty
`name` / `date` / `time` hints. -/
def describeAction (a : ChatExecutionAction) : String :=
  let label := ((actionLabels.lookup a.type).getD a.type)
  let hints := [trimValue a.paramName, trimValue a.paramDate,
    trimValue a.paramTime].filter (fun h => h ≠ "")
  if hints ≠ [] then label ++ "（" ++ joinSep " / " hints ++ "）" else label

/-- The numbered action lines of a round, starting at index `idx`. -/
def numberedActionLines : Nat → List ChatExecutionAction → List String
  | _, [] => []
  | idx, a :: rest =>
    (toString idx ++ ". " ++ describeAction a) :: numberedActionLines (idx + 1) rest

/-- The body of the `lines` accumulation loop of `buildExecutionTraceSummary`:
a round without an `actions` array is skipped entirely (`continue`); otherwise
its actions are numbered and, when the round carries a non-empty `errors`
array, a caveat line quoting the first error is added. -/
def summaryLinesGo : Nat → List ChatExecutionRound → List String
  | _, [] => []
  | idx, r :: rest =>
    match r.actions with
    | none => summaryLinesGo idx rest
    | some acts =>
      numberedActionLines idx acts ++
        (match r.errors with
         | some (e :: _) => ["- 注意: " ++ e]
         | _ => []) ++
        summaryLinesGo (idx + acts.length) rest

/-- The full `lines` list built by `buildExecutionTraceSummary`, header
included. -/
def summaryLines (rounds : List ChatExecutionRound) : List String :=
  "実行ログ（自動処理）" :: summaryLinesGo 1 rounds

/-- `buildExecutionTraceSummary` from `Shells.tsx`: empty or absent traces
yield `""`; otherwise the lines are joined with newlines — but only when some
line beyond the header was produced. -/
def buildExecutionTraceSummary : Option (List ChatExecutionRound) → String
  | none => ""
  | some rounds =>
    if rounds = [] then ""
    else
      let lines := summaryLines rounds
      if 1 < lines.length then joinSep "\n" lines else ""

/-- The observable effect of one submit: the display messages appended after
the user's own message was echoed, and the ids passed to `onRefresh` (if it
was invoked). -/
structure SubmitEffects where
  appended : List ChatMessage
  refreshedWith : Option (List String)
deriving DecidableEq, Repr

/-- `handleSubmit` of the trace-aware `ChatSidebar` variant in `Shells.tsx`,
as a function of the pre-submit UI state and the settled result of
`requestAssistantResponse`.  Gating mirrors the source: nothing happens while
paused or sending or when the trimmed input is empty.  On success the
execution-trace summary (when non-empty) is appended first, then either the
trimmed reply, or the fixed acknowledgement when the reply is blank but
`should_refresh` is set; on failure a message prefixed with
`エラーが発生しました: ` carrying `err.message` is appended. -/
def handleSubmit (isPaused isSending : Bool) (input : String)
    (response : Except JsError ChatResponse) : SubmitEffects :=
  if isPaused || isSending then ⟨[], none⟩
  else
    let text := jsTrim input
    if text = "" then ⟨[], none⟩
    else
      let userMsg : ChatMessage := ⟨.user, text⟩
      match response with
      | .error e =>
        ⟨[userMsg, ⟨.assistant, "エラーが発生しました: " ++ e.message⟩], none⟩
      | .ok data =>
        let executionSummary := buildExecutionTraceSummary data.executionTrace
        let summaryMsgs : List ChatMessage :=
          if executionSummary = "" then [] else [⟨.assistant, executionSummary⟩]
        let cleanReply := jsTrim (data.reply.getD "")
        let replyMsgs : List ChatMessage :=
          if cleanReply ≠ "" then [⟨.assistant, cleanReply⟩]
          else if data.shouldRefresh then [⟨.assistant, "了解しました。"⟩]
          else []
        ⟨userMsg :: (summaryMsgs ++ replyMsgs),
         if data.shouldRefresh then some (data.modifiedIds.getD []) else none⟩

/-- The submit handler shared by the second `ChatSidebar` variant in
`Shells.tsx` and the form handler in `static/scheduler.js`: no trace summary,
and the assistant bubble is always `cleanReply || "了解しました。"`. -/
def handleSubmitLegacy (isPaused isSending : Bool) (input : String)
    (response : Except JsError ChatResponse) : SubmitEffects :=
  if isPaused || isSending then ⟨[], none⟩
  else
    let text := jsTrim input
    if text = "" then ⟨[], none⟩
    else
      let userMsg : ChatMessage := ⟨.user, text⟩
      match response with
      | .error e =>
        ⟨[userMsg, ⟨.assistant, "エラーが発生しました: " ++ e.message⟩], none⟩
      | .ok data =>
        let cleanReply := jsTrim (data.reply.getD "")
        ⟨[userMsg,
          ⟨.assistant, if cleanReply ≠ "" then cleanReply else "了解しました。"⟩],
         if data.shouldRefresh then some (data.modifiedIds.getD []) else none⟩

/-- The `messages` payload built by `requestAssistantResponse` (both
`ChatSidebar` variants and `static/scheduler.js`): the whole history, each
entry projected to `role` and `content`. -/
def requestAssistantPayload (history : List ChatMessage) : List ChatMessage :=
  history.map (fun m => ⟨m.role, m.content⟩)

/-- The payload a submit posts to `/api/chat`, `none` when the submit is
gated off: the user message is appended to the history first, then
`requestAssistantResponse` serialises the whole history. -/
def submitPayload (isPaused isSending : Bool) (input : String)
    (history : List ChatMessage) : Option (List ChatMessage) :=
  if isPaused || isSending then none
  else if jsTrim input = "" then none
  else some (requestAssistantPayload (history ++ [⟨.user, jsTrim input⟩]))

/-- JavaScript `Array.prototype.slice(-n)`: the last at most `n` elements. -/
def sliceLast {α : Type} (n : Nat) (l : List α) : List α :=
  l.drop (l.length - n)

/-- The `messages` payload built by `runScenario` in `EvaluationPage.tsx`:
the running conversation plus the scenario prompt, sliced to the last 10
entries. -/
def runScenarioPayload (conversation : List ChatMessage) (prompt : String) :
    List ChatMessage :=
  sliceLast 10 (conversation ++ [⟨.user, prompt⟩])

/-! ### The multi-round action orchestrator

The backend that implements `process_chat_request` / `_run_scheduler_multi_step`
(`app.py` and the `scheduler_agent` services named in the repository's
refactoring notes) is not among the available sources; these definitions are
modelled from the specification's §3 data model, §4.2 Round Executor and §4.4
Dedup & Streak Guard. -/

/-- Modelled from the spec: an orchestrator `Action` — `app.py`'s proposed
tool invocation records are not in the available sources.  `params` is a
string-to-string mapping represented as an association list. -/
structure SpecAction where
  type : String
  params : List (String × String)
deriving DecidableEq, Repr

/-- Modelled from the spec: parameter normalisation for dedup equality —
mappings are compared order-insensitively, here by sorting entries by key
(insertion sort on the key strings). -/
def normalizeParams (ps : List (String × String)) : List (String × String) :=
  ps.foldr (fun p acc => acc.orderedInsert (fun a b => a.1 ≤ b.1) p) []

/-- Modelled from the spec: the dedup key `(type, normalized params)`. -/
def actionKey (a : SpecAction) : String × List (String × String) :=
  (a.type, normalizeParams a.params)

/-- Modelled from the spec: `ActionOutcome.status` — `applied`,
`skipped-duplicate`, a distinct guard status for read-streak rejections, and
`error`. -/
inductive SpecStatus where
  | applied
  | skippedDuplicate
  | skippedStreak
  | error
deriving DecidableEq, Repr

/-- Modelled from the spec: an `ActionOutcome`. -/
structure SpecOutcome where
  action : SpecAction
  status : SpecStatus
  message : String
  modifiedEntityIds : List String
deriving DecidableEq, Repr

/-- Modelled from the spec: an `ExecutionRound`. -/
structure SpecRound where
  roundIndex : Nat
  actions : List SpecOutcome
  modelNarrative : Option String
deriving DecidableEq, Repr

/-- Modelled from the spec: `ExecutionTrace.terminationReason`. -/
inductive SpecTermination where
  | completed
  | roundCap
  | error
deriving DecidableEq, Repr

/-- Modelled from the spec: an `ExecutionTrace`. -/
structure SpecTrace where
  rounds : List SpecRound
  terminationReason : SpecTermination
deriving DecidableEq, Repr

/-- Modelled from the spec: one reply of the model capability — optional
narrative text plus zero or more proposed actions. -/
structure SpecModelResponse where
  narrative : Option String
  actions : List SpecAction
deriving DecidableEq, Repr

/-- Modelled from the spec: the result of the Action Applier on one action. -/
inductive SpecApplyResult where
  | ok (message : String) (ids : List String)
  | err (message : String)
deriving DecidableEq, Repr

/-- Modelled from the spec: the Action Catalog collaborator — a read-only
classification per action type and the per-action apply capability
(deterministic within one turn, per the spec's determinism requirement). -/
structure SpecCatalog where
  isReadOnly : String → Bool
  apply : SpecAction → SpecApplyResult

/-- Modelled from the spec: the orchestrator configuration —
`SCHEDULER_MAX_ACTION_ROUNDS` and `SCHEDULER_MAX_SAME_READ_ACTION_STREAK`. -/
structure SpecConfig where
  maxRounds : Nat
  readStreakCap : Nat

/-- Modelled from the spec: the Dedup & Streak Guard's in-turn state — the
dedup keys of the actions applied so far and the rolling count of consecutive
read-only applied actions since the last mutation. -/
structure GuardState where
  appliedKeys : List (String × List (String × String))
  readStreak : Nat
deriving DecidableEq, Repr

/-- Modelled from the spec: guard-then-apply for a single proposed action.
An action whose key matches an already-applied action of the turn is recorded
as `skipped-duplicate`; a read-only action past the streak cap is rejected
with the distinct guard status; otherwise the Applier runs and the outcome is
`applied` (extending the dedup keys and updating the streak) or `error`. -/
def execAction (cat : SpecCatalog) (cfg : SpecConfig) (st : GuardState)
    (a : SpecAction) : SpecOutcome × GuardState :=
  if actionKey a ∈ st.appliedKeys then
    (⟨a, .skippedDuplicate, "duplicate action skipped", []⟩, st)
  else if cat.isReadOnly a.type ∧ cfg.readStreakCap ≤ st.readStreak then
    (⟨a, .skippedStreak, "read-only streak cap reached", []⟩, st)
  else
    match cat.apply a with
    | .ok msg ids =>
      (⟨a, .applied, msg, ids⟩,
       ⟨st.appliedKeys ++ [actionKey a],
        if cat.isReadOnly a.type then st.readStreak + 1 else 0⟩)
    | .err msg => (⟨a, .error, msg, []⟩, st)

/-- Modelled from the spec: sequential in-round execution of the proposed
actions (§4.2 step 4). -/
def execActions (cat : SpecCatalog) (cfg : SpecConfig) (st : GuardState) :
    List SpecAction → List SpecOutcome × GuardState
  | [] => ([], st)
  | a :: rest =>
    let step := execAction cat cfg st a
    let more := execActions cat cfg step.2 rest
    (step.1 :: more.1, more.2)

/-- Modelled from the spec: the Round Executor loop (§4.2).  Fuel is the
remaining round budget; exhausting it terminates with the round cap, a model
response with no actions terminates the turn as completed, and running out of
model responses stands for a model-call failure ending the loop with the
`error` termination reason. -/
def runRounds (cat : SpecCatalog) (cfg : SpecConfig) :
    Nat → Nat → GuardState → List SpecModelResponse →
    List SpecRound × SpecTermination
  | 0, _, _, _ => ([], .roundCap)
  | _ + 1, _, _, [] => ([], .error)
  | fuel + 1, idx, st, resp :: rest =>
    if resp.actions = [] then ([], .completed)
    else
      let stepOuts := execActions cat cfg st resp.actions
      let round : SpecRound := ⟨idx, stepOuts.1, resp.narrative⟩
      let more := runRounds cat cfg fuel (idx + 1) stepOuts.2 rest
      (round :: more.1, more.2)

/-- Modelled from the spec: one whole orchestration turn
(`processChatTurn` / `process_chat_request`), starting from a fresh guard
state and the configured round budget. -/
def processChatTurn (cat : SpecCatalog) (cfg : SpecConfig)
    (responses : List SpecModelResponse) : SpecTrace :=
  let result := runRounds cat cfg cfg.maxRounds 0 ⟨[], 0⟩ responses
  ⟨result.1, result.2⟩

/-- The dedup keys contributed by one recorded outcome: the key of its action
when it was applied, nothing otherwise. -/
def outcomeKeys (o : SpecOutcome) : List (String × List (String × String)) :=
  if o.status = .applied then [actionKey o.action] else []

/-- The dedup keys of all `applied` outcomes of a trace, in order. -/
def appliedKeysOf (rounds : List SpecRound) :
    List (String × List (String × String)) :=
  rounds.foldr (fun r acc => (r.actions.foldr (fun o acc2 => outcomeKeys o ++ acc2) []) ++ acc) []

/-! ### Helper lemmas -/

theorem head?_dropWhile_false {α : Type} (p : α → Bool) (l : List α) (c : α)
    (h : (l.dropWhile p).head? = some c) : p c = false := by
  induction l with
  | nil => simp [List.dropWhile] at h
  | cons a t ih =>
    rw [List.dropWhile_cons] at h
    split at h
    · exact ih h
    · next hp => simp at h; subst h; simpa using hp

theorem removeTrailingSlashes_reverse_head (l : List Char) :
    (removeTrailingSlashes l).reverse.head? ≠ some '/' := by
  intro h
  rw [removeTrailingSlashes, List.reverse_reverse] at h
  have := head?_dropWhile_false _ _ _ h
  simp at this

theorem proxyPrefixOf_reverse_head (raw : List Char) :
    (proxyPrefixOf raw).reverse.head? ≠ some '/' := by
  rw [proxyPrefixOf]
  split
  · simp
  · exact removeTrailingSlashes_reverse_head _

theorem hasDoubleSlash_cons_cons (a b : Char) (rest : List Char) :
    hasDoubleSlash (a :: b :: rest)
      = ((a == '/' && b == '/') || hasDoubleSlash (b :: rest)) := rfl

theorem hasDoubleSlash_append (ys : List Char) (hys : hasDoubleSlash ys = false) :
    ∀ xs, hasDoubleSlash xs = false → xs.reverse.head? ≠ some '/' →
      hasDoubleSlash (xs ++ ys) = false := by
  intro xs
  induction xs with
  | nil => intro _ _; simpa using hys
  | cons a t ih =>
    intro hxs hx
    cases t with
    | nil =>
      have ha : a ≠ '/' := by simpa using hx
      cases ys with
      | nil => simp [hasDoubleSlash]
      | cons b r =>
        rw [List.singleton_append, hasDoubleSlash_cons_cons]
        simp [ha, hys]
    | cons b t' =>
      rw [List.cons_append, List.cons_append, hasDoubleSlash_cons_cons]
      rw [hasDoubleSlash_cons_cons] at hxs
      obtain ⟨h1, h2⟩ := Bool.or_eq_false_iff.mp hxs
      have hm : (b :: t').reverse.head? ≠ some '/' := by
        intro hcontra
        apply hx
        cases hq : (b :: t').reverse with
        | nil => simp at hq
        | cons c m =>
          rw [hq] at hcontra
          simp at hcontra
          rw [List.reverse_cons, hq, hcontra]
          simp
      have := ih h2 hm
      rw [List.cons_append] at this
      simp [h1, this]

theorem hasDoubleSlash_tail (c : Char) (rest : List Char)
    (h : hasDoubleSlash (c :: rest) = false) : hasDoubleSlash rest = false := by
  cases rest with
  | nil => rfl
  | cons d r =>
    rw [hasDoubleSlash_cons_cons] at h
    exact (Bool.or_eq_false_iff.mp h).2

theorem collapseGo_eq_self : ∀ (l : List Char) (b : Bool),
    hasDoubleSlash l = false → (b = true → l.head? ≠ some '/') →
    collapseGo b l = l := by
  intro l
  induction l with
  | nil => intro b _ _; rfl
  | cons c rest ih =>
    intro b hdbl hb
    rw [collapseGo]
    by_cases hc : c = '/'
    · subst hc
      have hbf : b = false := by
        cases b with
        | false => rfl
        | true => exact absurd (by simp) (hb rfl)
      rw [hbf]
      simp only [beq_self_eq_true, if_true, Bool.false_eq_true, if_false]
      cases rest with
      | nil => rfl
      | cons d rest' =>
        rw [hasDoubleSlash_cons_cons] at hdbl
        obtain ⟨h1, h2⟩ := Bool.or_eq_false_iff.mp hdbl
        have hd : d ≠ '/' := by
          intro he
          rw [he] at h1
          simp at h1
        rw [ih true h2 (fun _ => by simpa using hd)]
    · rw [if_neg (by simpa using hc)]
      rw [ih false (hasDoubleSlash_tail c rest hdbl) (by simp)]

theorem collapseSlashes_eq_self (l : List Char) (h : hasDoubleSlash l = false) :
    collapseSlashes l = l :=
  collapseGo_eq_self l false h (by simp)

theorem cleanedOf_head (pp : List Char) : (cleanedOf pp).head? = some '/' := by
  rw [cleanedOf]
  split
  · assumption
  · rfl

theorem cleanedOf_noDouble (pp : List Char) (h : hasDoubleSlash pp = false) :
    hasDoubleSlash (cleanedOf pp) = false := by
  rw [cleanedOf]
  split
  · exact h
  · next hnp =>
    cases pp with
    | nil => simp [hasDoubleSlash]
    | cons c rest =>
      simp only [List.head?_cons] at hnp
      have hc : c ≠ '/' := by intro he; exact hnp (by rw [he])
      rw [hasDoubleSlash_cons_cons]
      simp [hc, h]

theorem cleanedOf_reverse_head (pp : List Char) (hne : pp ≠ [])
    (h : pp.reverse.head? ≠ some '/') :
    (cleanedOf pp).reverse.head? ≠ some '/' := by
  rw [cleanedOf]
  split
  · exact h
  · cases hq : pp.reverse with
    | nil => exact absurd (by simpa using hq) hne
    | cons c m =>
      rw [List.reverse_cons, hq]
      rw [hq] at h
      simp only [List.head?_cons] at h
      simp only [List.cons_append, List.head?_cons]
      exact h

/-! ### C10: prefixing then stripping a path -/

/-- C10 (counterexample): with the proxy prefix `/a//b` — which contains
consecutive slashes — and the path `/x`, `withPrefix` collapses the double
slash, so `stripPrefixFromPath` no longer finds the prefix and the round trip
returns `/a/b/x` instead of `/x`.  The path itself satisfies all of the
claim's side conditions. -/
theorem stripPrefix_withPrefix_not_roundtrip :
    stripPrefixFromPath "/a//b".data (withPrefix "/a//b".data "/x".data)
        = "/a/b/x".data
      ∧ "/a/b/x".data ≠ "/x".data
      ∧ "/x".data.head? = some '/'
      ∧ hasDoubleSlash "/x".data = false := by
  refine ⟨by decide, by decide, by decide, by decide⟩

/-- C10 (amended): for every proxy-prefix value whose derived prefix contains
no consecutive slashes, and every path that begins with `/` and contains no
consecutive slashes, stripping after prefixing is the identity. -/
theorem stripPrefix_withPrefix_roundtrip (raw path : List Char)
    (hpp : hasDoubleSlash (proxyPrefixOf raw) = false)
    (hpath : path.head? = some '/')
    (hpath2 : hasDoubleSlash path = false) :
    stripPrefixFromPath raw (withPrefix raw path) = path := by
  have hne : path ≠ [] := by
    intro he
    rw [he] at hpath
    simp at hpath
  by_cases h0 : proxyPrefixOf raw = []
  · have hw : withPrefix raw path = path := by
      simp [withPrefix, h0, hpath]
    rw [hw]
    simp [stripPrefixFromPath, h0, hne]
  · have hC2 : hasDoubleSlash (cleanedOf (proxyPrefixOf raw)) = false :=
      cleanedOf_noDouble _ hpp
    have hC3 : (cleanedOf (proxyPrefixOf raw)).reverse.head? ≠ some '/' :=
      cleanedOf_reverse_head _ h0 (proxyPrefixOf_reverse_head raw)
    have happ : hasDoubleSlash (cleanedOf (proxyPrefixOf raw) ++ path) = false :=
      hasDoubleSlash_append path hpath2 _ hC2 hC3
    have hwith : withPrefix raw path = cleanedOf (proxyPrefixOf raw) ++ path := by
      simp only [withPrefix, hpath, if_pos, if_neg h0]
      exact collapseSlashes_eq_self _ happ
    rw [hwith]
    have hcond : cleanedOf (proxyPrefixOf raw) ++ path ≠ [] ∧
        (cleanedOf (proxyPrefixOf raw)).isPrefixOf
          (cleanedOf (proxyPrefixOf raw) ++ path) = true := by
      constructor
      · simp [hne]
      · rw [List.isPrefixOf_iff_prefix]
        exact List.prefix_append _ _
    simp only [stripPrefixFromPath, if_neg h0, if_pos hcond]
    rw [List.drop_left, if_pos hpath]

/-! ### C1: round count bounded by maxRounds -/

theorem runRounds_length_le (cat : SpecCatalog) (cfg : SpecConfig) :
    ∀ fuel idx st rs, (runRounds cat cfg fuel idx st rs).1.length ≤ fuel := by
  intro fuel
  induction fuel with
  | zero => intro idx st rs; simp [runRounds]
  | succ n ih =>
    intro idx st rs
    cases rs with
    | nil => simp [runRounds]
    | cons r rest =>
      rw [runRounds]
      split
      · simp
      · simpa using Nat.succ_le_succ (ih (idx + 1) _ rest)

/-- C1: for every chat turn processed by the orchestrator, the number of
rounds in the resulting execution trace is at most the configured `maxRounds`
bound (spec-modelled Round Executor). -/
theorem trace_rounds_le_maxRounds (cat : SpecCatalog) (cfg : SpecConfig)
    (responses : List SpecModelResponse) :
    (processChatTurn cat cfg responses).rounds.length ≤ cfg.maxRounds :=
  runRounds_length_le cat cfg cfg.maxRounds 0 ⟨[], 0⟩ responses

/-! ### C5: history trimming -/

/-- C5 (counterexample): an 11-message history is sent to `/api/chat`
untrimmed by `requestAssistantResponse` — the payload has 11 messages, more
than the claimed bound of 10. -/
theorem requestAssistantPayload_untrimmed :
    (requestAssistantPayload (List.replicate 11 ⟨ChatRole.user, "x"⟩)).length = 11
      ∧ ¬ (requestAssistantPayload
            (List.replicate 11 ⟨ChatRole.user, "x"⟩)).length ≤ 10 := by
  refine ⟨by decide, by decide⟩

/-- C5 (amended): only the evaluation page's scenario runner trims the
conversation it sends, to at most the last 10 messages; the chat sidebar's
`requestAssistantResponse` posts the entire history, payload length equal to
history length. -/
theorem history_trimming_policy :
    (∀ (conversation : List ChatMessage) (prompt : String),
        (runScenarioPayload conversation prompt).length ≤ 10)
      ∧ (∀ history : List ChatMessage,
          (requestAssistantPayload history).length = history.length) := by
  constructor
  · intro conversation prompt
    rw [runScenarioPayload, sliceLast]
    rw [List.length_drop]
    omega
  · intro history
    rw [requestAssistantPayload, List.length_map]

/-! ### C6: last payload message is from the user -/

/-- C6: every `messages` payload the chat UI posts to `/api/chat` ends with a
`user`-role message — the submit handler appends the trimmed user input to
the history before `requestAssistantResponse` serialises it. -/
theorem submitPayload_last_is_user (p s : Bool) (input : String)
    (history : List ChatMessage) (ps : List ChatMessage)
    (h : submitPayload p s input history = some ps) :
    ∃ m, ps.getLast? = some m ∧ m.role = ChatRole.user := by
  rw [submitPayload] at h
  split at h
  · exact absurd h (by simp)
  · split at h
    · exact absurd h (by simp)
    · rw [Option.some_inj] at h
      refine ⟨⟨ChatRole.user, jsTrim input⟩, ?_, rfl⟩
      rw [← h, requestAssistantPayload, List.map_append]
      simp [List.getLast?_concat]

/-- C6 (witness): a concrete submit with input `"hi"` over the empty history
produces the payload `[⟨user, "hi"⟩]`, whose last element is a user
message. -/
theorem submitPayload_last_is_user_witness :
    ∃ m, ([⟨ChatRole.user, "hi"⟩] : List ChatMessage).getLast? = some m
      ∧ m.role = ChatRole.user :=
  submitPayload_last_is_user false false "hi" [] _ (by decide)

/-! ### C2: no duplicate applied action within a turn -/

theorem outcomeKeys_cases (o : SpecOutcome) :
    outcomeKeys o = [] ∨ outcomeKeys o = [actionKey o.action] := by
  rw [outcomeKeys]
  split
  · right; rfl
  · left; rfl

theorem execAction_keys (cat : SpecCatalog) (cfg : SpecConfig) (st : GuardState)
    (a : SpecAction) :
    (execAction cat cfg st a).2.appliedKeys
        = st.appliedKeys ++ outcomeKeys (execAction cat cfg st a).1
      ∧ ∀ k ∈ outcomeKeys (execAction cat cfg st a).1, k ∉ st.appliedKeys := by
  rw [execAction]
  split
  · exact ⟨by simp [outcomeKeys], by simp [outcomeKeys]⟩
  · next h1 =>
    split
    · exact ⟨by simp [outcomeKeys], by simp [outcomeKeys]⟩
    · split
      · refine ⟨by simp [outcomeKeys], ?_⟩
        intro k hk
        simp [outcomeKeys] at hk
        rw [hk]
        exact h1
      · exact ⟨by simp [outcomeKeys], by simp [outcomeKeys]⟩

theorem execActions_keys (cat : SpecCatalog) (cfg : SpecConfig) :
    ∀ (as : List SpecAction) (st : GuardState),
      (execActions cat cfg st as).2.appliedKeys
          = st.appliedKeys
            ++ (execActions cat cfg st as).1.foldr
                 (fun o acc => outcomeKeys o ++ acc) []
        ∧ (st.appliedKeys.Nodup → (execActions cat cfg st as).2.appliedKeys.Nodup) := by
  intro as
  induction as with
  | nil =>
    intro st
    exact ⟨by simp [execActions], fun h => by simpa [execActions] using h⟩
  | cons a rest ih =>
    intro st
    obtain ⟨hstep_eq, hstep_mem⟩ := execAction_keys cat cfg st a
    obtain ⟨ih_eq, ih_nodup⟩ := ih (execAction cat cfg st a).2
    constructor
    · simp only [execActions]
      rw [List.foldr_cons, ih_eq, hstep_eq, List.append_assoc]
    · intro hnd
      simp only [execActions]
      apply ih_nodup
      rw [hstep_eq]
      rcases outcomeKeys_cases (execAction cat cfg st a).1 with hz | ⟨hk⟩
      · simpa [hz] using hnd
      · rw [hk]
        refine List.Nodup.append hnd (by simp) ?_
        intro x hx hx2
        simp at hx2
        rw [hx2] at hx
        exact hstep_mem _ (by rw [hk]; simp) hx

theorem runRounds_nodup (cat : SpecCatalog) (cfg : SpecConfig) :
    ∀ fuel idx (st : GuardState) rs, st.appliedKeys.Nodup →
      (st.appliedKeys ++ appliedKeysOf (runRounds cat cfg fuel idx st rs).1).Nodup := by
  intro fuel
  induction fuel with
  | zero => intro idx st rs h; simpa [runRounds, appliedKeysOf] using h
  | succ n ih =>
    intro idx st rs h
    cases rs with
    | nil => simpa [runRounds, appliedKeysOf] using h
    | cons resp rest =>
      rw [runRounds]
      split
      · simpa [appliedKeysOf] using h
      · obtain ⟨heq, hnodup⟩ := execActions_keys cat cfg resp.actions st
        have hrec := ih (idx + 1) (execActions cat cfg st resp.actions).2 rest (hnodup h)
        rw [heq, List.append_assoc] at hrec
        simpa [appliedKeysOf] using hrec

/-- C2: in every orchestration turn, the dedup keys of `applied` outcomes are
pairwise distinct — no two applied outcomes share an identical
`(type, normalized params)` pair — and any action whose key matches an
already-applied action of the turn is recorded as `skipped-duplicate` by the
guard instead of being applied again (spec-modelled Dedup Guard). -/
theorem applied_outcomes_nodup_and_dedup (cat : SpecCatalog) (cfg : SpecConfig)
    (responses : List SpecModelResponse) :
    (appliedKeysOf (processChatTurn cat cfg responses).rounds).Nodup
      ∧ ∀ (st : GuardState) (a : SpecAction), actionKey a ∈ st.appliedKeys →
          (execAction cat cfg st a).1.status = SpecStatus.skippedDuplicate := by
  constructor
  · have h := runRounds_nodup cat cfg cfg.maxRounds 0 ⟨[], 0⟩ responses (by simp)
    simpa [processChatTurn] using h
  · intro st a h
    rw [execAction, if_pos h]

/-- C2 (witness): re-submitting an action whose key is already among the
turn's applied keys is recorded as `skipped-duplicate` at a concrete
catalog, configuration and state. -/
theorem applied_outcomes_nodup_and_dedup_witness :
    (execAction ⟨fun _ => false, fun _ => SpecApplyResult.ok "" []⟩ ⟨3, 3⟩
        ⟨[actionKey ⟨"t", []⟩], 0⟩ ⟨"t", []⟩).1.status
      = SpecStatus.skippedDuplicate :=
  (applied_outcomes_nodup_and_dedup ⟨fun _ => false, fun _ => SpecApplyResult.ok "" []⟩
    ⟨3, 3⟩ []).2 ⟨[actionKey ⟨"t", []⟩], 0⟩ ⟨"t", []⟩ (by decide)

/-! ### C9: fetchJson behaviour -/

/-- C9 (counterexample): an `ok` response with a JSON content type but a body
that is not valid JSON does not resolve — `res.json()` rejects with a
`SyntaxError`, which is not an `ApiError`. -/
theorem fetchJson_rejects_invalid_json :
    (⟨true, 200, "application/json", "not json", none⟩ : HttpResponse Nat).ok = true
      ∧ jsIncludes (⟨true, 200, "application/json", "not json", none⟩
            : HttpResponse Nat).contentType "application/json" = true
      ∧ fetchJson (⟨true, 200, "application/json", "not json", none⟩
            : HttpResponse Nat)
          = Except.error (JsError.syntaxError "Unexpected end of JSON input")
      ∧ ∀ (m : String) (s : Nat),
          JsError.syntaxError "Unexpected end of JSON input"
            ≠ JsError.apiError m s := by
  refine ⟨rfl, by decide, rfl, ?_⟩
  intro m s h
  exact JsError.noConfusion h

/-- C9 (amended): `fetchJson` resolves with the parsed JSON body exactly when
the response is `ok`, the content type includes `application/json` and the
body parses as JSON; a non-`ok` response throws `ApiError` with the raw body
text (or `HTTP <status>` when the body is empty) and the status; an `ok`
response with the wrong content type throws `ApiError("Response is not JSON")`
with the status; an unparseable body throws the JSON parse error instead of
an `ApiError`. -/
theorem fetchJson_spec {α : Type} (res : HttpResponse α) :
    (∀ v : α, fetchJson res = Except.ok v
        ↔ (res.ok = true ∧ jsIncludes res.contentType "application/json" = true
            ∧ res.jsonBody = some v))
      ∧ (res.ok = false →
          fetchJson res = Except.error (JsError.apiError
            (if res.bodyText = "" then "HTTP " ++ toString res.status
             else res.bodyText) res.status))
      ∧ (res.ok = true → jsIncludes res.contentType "application/json" = false →
          fetchJson res
            = Except.error (JsError.apiError "Response is not JSON" res.status))
      ∧ (res.ok = true → jsIncludes res.contentType "application/json" = true →
          res.jsonBody = none →
          fetchJson res
            = Except.error (JsError.syntaxError "Unexpected end of JSON input")) := by
  obtain ⟨ok, status, ct, body, jb⟩ := res
  cases ok with
  | false =>
    refine ⟨?_, ?_, ?_, ?_⟩
    · intro v
      constructor
      · intro h
        rw [fetchJson] at h
        simp at h
      · rintro ⟨h, -, -⟩
        exact absurd h (by simp)
    · intro _
      rw [fetchJson]
      simp
    · intro h
      exact absurd h (by simp)
    · intro h
      exact absurd h (by simp)
  | true =>
    cases hinc : jsIncludes ct "application/json" with
    | false =>
      refine ⟨?_, ?_, ?_, ?_⟩
      · intro v
        constructor
        · intro h
          rw [fetchJson] at h
          simp [hinc] at h
        · rintro ⟨-, h, -⟩
          simp [hinc] at h
      · intro h
        exact absurd h (by simp)
      · intro _ _
        rw [fetchJson]
        simp [hinc]
      · intro _ h
        simp [hinc] at h
    | true =>
      cases jb with
      | none =>
        refine ⟨?_, ?_, ?_, ?_⟩
        · intro v
          constructor
          · intro h
            rw [fetchJson] at h
            simp [hinc] at h
          · rintro ⟨-, -, h⟩
            exact absurd h (by simp)
        · intro h
          exact absurd h (by simp)
        · intro _ h
          simp [hinc] at h
        · intro _ _ _
          rw [fetchJson]
          simp [hinc]
      | some v0 =>
        refine ⟨?_, ?_, ?_, ?_⟩
        · intro v
          constructor
          · intro h
            rw [fetchJson] at h
            simp [hinc] at h
            simp [hinc, h]
          · rintro ⟨-, -, h⟩
            simp only [Option.some_inj] at h
            rw [fetchJson]
            simp [hinc, h]
        · intro h
          exact absurd h (by simp)
        · intro _ h
          simp [hinc] at h
        · intro _ _ h
          exact absurd h (by simp)

/-- C9 (witness): a concrete non-`ok` response with body `"nope"` and status
404 makes `fetchJson` throw `ApiError` carrying that body text and status. -/
theorem fetchJson_spec_witness :
    fetchJson (⟨false, 404, "text/html", "nope", none⟩ : HttpResponse Nat)
      = Except.error (JsError.apiError
          (if ("nope" : String) = "" then "HTTP " ++ toString 404 else "nope")
          404) :=
  (fetchJson_spec (⟨false, 404, "text/html", "nope", none⟩ : HttpResponse Nat)).2.1
    rfl

/-! ### C4: internal error text reaches the user verbatim -/

/-- C4 (counterexample): a failed HTTP chat request whose body is a raw
traceback produces an assistant reply that quotes the body verbatim — the raw
internal error text is displayed, not only logged. -/
theorem raw_error_text_displayed :
    (handleSubmit false false "hi"
        (fetchJson (⟨false, 500, "text/plain", "Traceback: boom", none⟩
          : HttpResponse ChatResponse))).appended
        = [⟨ChatRole.user, "hi"⟩,
           ⟨ChatRole.assistant, "エラーが発生しました: Traceback: boom"⟩]
      ∧ containsSub "Traceback: boom".data
          "エラーが発生しました: Traceback: boom".data = true := by
  refine ⟨by decide, by decide⟩

/-- C4 (amended): on every failed chat request the assistant reply is the
generic prefix `エラーが発生しました: ` followed verbatim by the thrown
error's `message`; for non-`ok` HTTP responses that message is the raw
response body text, so raw internal error detail is shown to the user rather
than confined to logging. -/
theorem error_reply_contains_raw_detail (input : String) (e : JsError)
    (hin : jsTrim input ≠ "") (res : HttpResponse ChatResponse)
    (hok : res.ok = false) (hbody : res.bodyText ≠ "") :
    (handleSubmit false false input (Except.error e)).appended
        = [⟨ChatRole.user, jsTrim input⟩,
           ⟨ChatRole.assistant, "エラーが発生しました: " ++ e.message⟩]
      ∧ (handleSubmitLegacy false false input (Except.error e)).appended
          = [⟨ChatRole.user, jsTrim input⟩,
             ⟨ChatRole.assistant, "エラーが発生しました: " ++ e.message⟩]
      ∧ fetchJson res = Except.error (JsError.apiError res.bodyText res.status) := by
  refine ⟨?_, ?_, ?_⟩
  · simp [handleSubmit, hin]
  · simp [handleSubmitLegacy, hin]
  · rw [fetchJson, if_pos hok, if_neg hbody]

/-- C4 (witness): the amended statement at a concrete input, error and
response. -/
theorem error_reply_contains_raw_detail_witness :
    (handleSubmit false false "hi"
        (Except.error (JsError.apiError "Traceback: boom" 500))).appended
        = [⟨ChatRole.user, jsTrim "hi"⟩,
           ⟨ChatRole.assistant,
            "エラーが発生しました: " ++ (JsError.apiError "Traceback: boom" 500).message⟩]
      ∧ (handleSubmitLegacy false false "hi"
          (Except.error (JsError.apiError "Traceback: boom" 500))).appended
          = [⟨ChatRole.user, jsTrim "hi"⟩,
             ⟨ChatRole.assistant,
              "エラーが発生しました: " ++ (JsError.apiError "Traceback: boom" 500).message⟩]
      ∧ fetchJson (⟨false, 500, "text/plain", "Traceback: boom", none⟩
            : HttpResponse ChatResponse)
          = Except.error (JsError.apiError "Traceback: boom" 500) :=
  error_reply_contains_raw_detail "hi" (JsError.apiError "Traceback: boom" 500)
    (by decide) ⟨false, 500, "text/plain", "Traceback: boom", none⟩ rfl (by decide)

/-! ### Execution-summary helper lemmas -/

theorem joinSep_cons_cons (sep a b : String) (l : List String) :
    joinSep sep (a :: b :: l) = a ++ sep ++ joinSep sep (b :: l) := rfl

theorem buildSummary_join (rounds : List ChatExecutionRound)
    (hgo : summaryLinesGo 1 rounds ≠ []) :
    buildExecutionTraceSummary (some rounds) = joinSep "\n" (summaryLines rounds)
      ∧ 11 ≤ (buildExecutionTraceSummary (some rounds)).length := by
  have hr : rounds ≠ [] := by
    intro he
    rw [he] at hgo
    exact hgo rfl
  obtain ⟨x, xs, hxs⟩ : ∃ x xs, summaryLinesGo 1 rounds = x :: xs := by
    cases h : summaryLinesGo 1 rounds with
    | nil => exact absurd h hgo
    | cons x xs => exact ⟨x, xs, rfl⟩
  have hlines : summaryLines rounds = "実行ログ（自動処理）" :: x :: xs := by
    rw [summaryLines, hxs]
  have hlen : 1 < (summaryLines rounds).length := by
    rw [hlines]
    simp
  have hbuild : buildExecutionTraceSummary (some rounds)
      = joinSep "\n" (summaryLines rounds) := by
    simp only [buildExecutionTraceSummary]
    rw [if_neg hr, if_pos hlen]
  refine ⟨hbuild, ?_⟩
  rw [hbuild, hlines, joinSep_cons_cons, String.length_append,
    String.length_append]
  rw [show ("実行ログ（自動処理）" : String).length = 10 from by decide]
  rw [show ("\n" : String).length = 1 from by decide]
  omega

theorem summary_ne_ack (trace : Option (List ChatExecutionRound))
    (h : buildExecutionTraceSummary trace ≠ "") :
    buildExecutionTraceSummary trace ≠ "了解しました。" := by
  cases trace with
  | none => exact absurd rfl h
  | some rounds =>
    by_cases hgo : summaryLinesGo 1 rounds = []
    · exfalso
      apply h
      simp only [buildExecutionTraceSummary]
      split
      · rfl
      · rw [summaryLines, hgo, if_neg (by simp)]
    · obtain ⟨-, hlen⟩ := buildSummary_join rounds hgo
      intro he
      rw [he] at hlen
      rw [show ("了解しました。" : String).length = 7 from by decide] at hlen
      omega

/-! ### C3: reply display policy -/

/-- C3 (counterexample): in the legacy submit handlers (second `ChatSidebar`
variant and `static/scheduler.js`) an empty reply with `should_refresh` false
— no mutation occurred — still shows the acknowledgement `了解しました。`. -/
theorem ack_shown_without_mutation :
    (handleSubmitLegacy false false "q"
        (Except.ok ⟨some "", false, none, none⟩)).appended
        = [⟨ChatRole.user, "q"⟩, ⟨ChatRole.assistant, "了解しました。"⟩]
      ∧ jsTrim ((some "" : Option String).getD "") = ""
      ∧ (⟨some "", false, none, none⟩ : ChatResponse).shouldRefresh = false := by
  refine ⟨by decide, by decide, rfl⟩

/-- C3 (amended): in the trace-aware chat sidebar a non-blank reply is shown
as its trimmed text, a blank reply with a successful mutation is replaced by
the fixed acknowledgement, and a blank reply with no mutation adds no
acknowledgement; the legacy handlers instead always show
`cleanReply || "了解しました。"`, acknowledging even without a mutation. -/
theorem reply_display_policy (input : String) (data : ChatResponse)
    (hin : jsTrim input ≠ "") :
    (jsTrim (data.reply.getD "") ≠ "" →
        (handleSubmit false false input (Except.ok data)).appended.getLast?
          = some ⟨ChatRole.assistant, jsTrim (data.reply.getD "")⟩)
      ∧ (jsTrim (data.reply.getD "") = "" → data.shouldRefresh = true →
          (handleSubmit false false input (Except.ok data)).appended.getLast?
            = some ⟨ChatRole.assistant, "了解しました。"⟩)
      ∧ (jsTrim (data.reply.getD "") = "" → data.shouldRefresh = false →
          ∀ m ∈ (handleSubmit false false input (Except.ok data)).appended,
            m.role = ChatRole.assistant → m.content ≠ "了解しました。")
      ∧ (handleSubmitLegacy false false input (Except.ok data)).appended.getLast?
          = some ⟨ChatRole.assistant,
              if jsTrim (data.reply.getD "") ≠ "" then jsTrim (data.reply.getD "")
              else "了解しました。"⟩ := by
  refine ⟨?_, ?_, ?_, ?_⟩
  · intro hr
    by_cases hs : buildExecutionTraceSummary data.executionTrace = "" <;>
      simp [handleSubmit, hin, hs, hr]
  · intro hr hsr
    by_cases hs : buildExecutionTraceSummary data.executionTrace = "" <;>
      simp [handleSubmit, hin, hs, hr, hsr]
  · intro hr hsr m hm hrole
    by_cases hs : buildExecutionTraceSummary data.executionTrace = ""
    · simp [handleSubmit, hin, hs, hr, hsr] at hm
      rw [hm] at hrole
      exact absurd hrole (by simp)
    · simp [handleSubmit, hin, hs, hr, hsr] at hm
      rcases hm with hm | hm
      · rw [hm] at hrole
        exact absurd hrole (by simp)
      · rw [hm]
        exact summary_ne_ack _ hs
  · simp [handleSubmitLegacy, hin]

/-- C3 (witness): the legacy-handler conjunct of the amended claim at a
concrete input whose reply is blank. -/
theorem reply_display_policy_witness :
    (handleSubmitLegacy false false "q"
        (Except.ok ⟨some "   ", true, none, none⟩)).appended.getLast?
      = some ⟨ChatRole.assistant,
          if jsTrim ((some "   " : Option String).getD "") ≠ ""
          then jsTrim ((some "   " : Option String).getD "")
          else "了解しました。"⟩ :=
  (reply_display_policy "q" ⟨some "   ", true, none, none⟩ (by decide)).2.2.2

/-! ### C8: plain replies displayed without an execution log -/

/-- C8 (counterexample): with no execution trace, the reply `" hi "` is
displayed as `"hi"` — trimmed, not unchanged; the raw reply string appears in
no displayed message. -/
theorem reply_displayed_trimmed :
    (handleSubmit false false "q"
        (Except.ok ⟨some " hi ", false, none, none⟩)).appended
        = [⟨ChatRole.user, "q"⟩, ⟨ChatRole.assistant, "hi"⟩]
      ∧ ("hi" : String) ≠ " hi "
      ∧ ∀ m ∈ (handleSubmit false false "q"
            (Except.ok ⟨some " hi ", false, none, none⟩)).appended,
          m.content ≠ " hi " := by
  refine ⟨by decide, by decide, by decide⟩

/-- C8 (amended): when the execution trace is absent or empty no
execution-log message is produced: the appended messages are exactly the
echoed user input plus — when its trim is non-empty — the trimmed reply (or
the acknowledgement when the trim is empty and a mutation occurred, or
nothing at all otherwise). -/
theorem plain_reply_display (input : String) (data : ChatResponse)
    (hin : jsTrim input ≠ "")
    (htr : data.executionTrace = none ∨ data.executionTrace = some []) :
    (jsTrim (data.reply.getD "") ≠ "" →
        (handleSubmit false false input (Except.ok data)).appended
          = [⟨ChatRole.user, jsTrim input⟩,
             ⟨ChatRole.assistant, jsTrim (data.reply.getD "")⟩])
      ∧ (jsTrim (data.reply.getD "") = "" → data.shouldRefresh = true →
          (handleSubmit false false input (Except.ok data)).appended
            = [⟨ChatRole.user, jsTrim input⟩,
               ⟨ChatRole.assistant, "了解しました。"⟩])
      ∧ (jsTrim (data.reply.getD "") = "" → data.shouldRefresh = false →
          (handleSubmit false false input (Except.ok data)).appended
            = [⟨ChatRole.user, jsTrim input⟩]) := by
  have hs : buildExecutionTraceSummary data.executionTrace = "" := by
    rcases htr with h | h
    · rw [h]
      rfl
    · rw [h]
      rfl
  refine ⟨?_, ?_, ?_⟩
  · intro hr
    simp [handleSubmit, hin, hs, hr]
  · intro hr hsr
    simp [handleSubmit, hin, hs, hr, hsr]
  · intro hr hsr
    simp [handleSubmit, hin, hs, hr, hsr]

/-- C8 (witness): the amended statement at a concrete plain reply with no
trace. -/
theorem plain_reply_display_witness :
    jsTrim ((some "done" : Option String).getD "") ≠ ""
      ∧ (handleSubmit false false "q"
          (Except.ok ⟨some "done", false, none, none⟩)).appended
          = [⟨ChatRole.user, jsTrim "q"⟩,
             ⟨ChatRole.assistant, jsTrim ((some "done" : Option String).getD "")⟩] :=
  ⟨by decide,
   (plain_reply_display "q" ⟨some "done", false, none, none⟩ (by decide)
      (Or.inl rfl)).1 (by decide)⟩

/-! ### C7: error rounds surface a caveat line -/

/-- C7 (counterexample): a trace whose only round carries a non-empty
`errors` list but no `actions` array is skipped by the summary builder — the
summary is empty, no caveat is shown, and the handler displays only the user
echo and the reply. -/
theorem missing_caveat_for_actionless_round :
    buildExecutionTraceSummary (some [⟨none, some ["boom"]⟩]) = ""
      ∧ (some ["boom"] : Option (List String)) ≠ none
      ∧ ["boom"] ≠ ([] : List String)
      ∧ (handleSubmit false false "q"
          (Except.ok ⟨some "done", false, none, some [⟨none, some ["boom"]⟩]⟩)).appended
          = [⟨ChatRole.user, "q"⟩, ⟨ChatRole.assistant, "done"⟩] := by
  refine ⟨rfl, by decide, by decide, by decide⟩

theorem caveat_mem_summaryLinesGo :
    ∀ (rounds : List ChatExecutionRound) (idx : Nat) (r : ChatExecutionRound)
      (acts : List ChatExecutionAction) (e : String) (es : List String),
      r ∈ rounds → r.actions = some acts → r.errors = some (e :: es) →
      ("- 注意: " ++ e) ∈ summaryLinesGo idx rounds := by
  intro rounds
  induction rounds with
  | nil =>
    intro idx r acts e es hm
    simp at hm
  | cons hd tl ih =>
    intro idx r acts e es hm ha he
    rw [summaryLinesGo]
    rcases List.mem_cons.mp hm with heq | hmem
    · subst heq
      rw [ha, he]
      simp
    · cases hact : hd.actions with
      | none => exact ih idx r acts e es hmem ha he
      | some acts2 =>
        simp only [List.mem_append]
        right
        exact ih _ r acts e es hmem ha he

/-- C7 (amended): whenever some round of the trace carries an `actions` array
and a non-empty `errors` list, the synthesized summary is the newline join of
the lines, those lines contain the caveat `- 注意: <first error>`, the
summary is non-empty, and the submit handler displays it as an assistant
message. -/
theorem caveat_line_shown (rounds : List ChatExecutionRound)
    (r : ChatExecutionRound) (acts : List ChatExecutionAction)
    (e : String) (es : List String)
    (hm : r ∈ rounds) (ha : r.actions = some acts) (he : r.errors = some (e :: es)) :
    ("- 注意: " ++ e) ∈ summaryLines rounds
      ∧ buildExecutionTraceSummary (some rounds)
          = joinSep "\n" (summaryLines rounds)
      ∧ buildExecutionTraceSummary (some rounds) ≠ ""
      ∧ ∀ (input : String) (data : ChatResponse), jsTrim input ≠ "" →
          data.executionTrace = some rounds →
          (⟨ChatRole.assistant, buildExecutionTraceSummary (some rounds)⟩
              : ChatMessage)
            ∈ (handleSubmit false false input (Except.ok data)).appended := by
  have hmem1 := caveat_mem_summaryLinesGo rounds 1 r acts e es hm ha he
  have hgo : summaryLinesGo 1 rounds ≠ [] := by
    intro hnil
    rw [hnil] at hmem1
    simp at hmem1
  obtain ⟨hb, hlen⟩ := buildSummary_join rounds hgo
  have hne : buildExecutionTraceSummary (some rounds) ≠ "" := by
    intro he2
    rw [he2] at hlen
    simp at hlen
  refine ⟨List.mem_cons_of_mem _ hmem1, hb, hne, ?_⟩
  intro input data hin htr
  simp only [handleSubmit, Bool.or_self, Bool.false_eq_true, if_false,
    if_neg hin, htr]
  rw [if_neg hne]
  simp

/-- C7 (witness): the amended statement at a concrete one-round trace whose
round has an empty actions array and the error `"boom"`. -/
theorem caveat_line_shown_witness :
    ("- 注意: " ++ "boom") ∈ summaryLines [⟨some [], some ["boom"]⟩]
      ∧ buildExecutionTraceSummary (some [⟨some [], some ["boom"]⟩]) ≠ "" :=
  ⟨(caveat_line_shown [⟨some [], some ["boom"]⟩] ⟨some [], some ["boom"]⟩ []
      "boom" [] (by decide) rfl rfl).1,
   (caveat_line_shown [⟨some [], some ["boom"]⟩] ⟨some [], some ["boom"]⟩ []
      "boom" [] (by decide) rfl rfl).2.2.1⟩

/-- C10 (witness): the amended round-trip statement at the concrete prefix
`/app` and path `/x`. -/
theorem stripPrefix_withPrefix_roundtrip_witness :
    stripPrefixFromPath "/app".data (withPrefix "/app".data "/x".data)
      = "/x".data :=
  stripPrefix_withPrefix_roundtrip "/app".data "/x".data (by decide) (by decide)
    (by decide)

end SchedulerAgent
